import Mathlib

/-!
Shallow embedding of `codex-cli/src/utils/storage/command-history.ts`:
a durable, privacy-filtering command-history log.  The backing file
(`~/.codex/history.json`) is modelled as an abstract state `FSState`
holding the parsed JSON document (or a marker for unparseable content);
I/O failures are modelled by explicit Boolean outcome flags, matching the
code's `try { ... } catch { log }` structure.  The JavaScript `RegExp`
engine used for caller-supplied patterns is modelled by an abstract
`compile : String → Option (String → Bool)` (`none` = the `new RegExp`
constructor throws); the five built-in regexes of `SENSITIVE_PATTERNS`
are transliterated into executable Lean matchers.
-/

/-- JSON documents, as produced by `JSON.parse`.  Numbers are restricted to
integers: every number this module ever writes is a `Date.now()` epoch-millis
integer. -/
inductive Json where
  | null : Json
  | bool : Bool → Json
  | num : Int → Json
  | str : String → Json
  | arr : List Json → Json
  | obj : List (String × Json) → Json

/-- Content of the history file: either text that `JSON.parse` rejects, or a
parsed JSON document. -/
inductive FileDoc where
  | invalid : FileDoc
  | json : Json → FileDoc

/-- State of the single backing file at `HISTORY_FILE`; `none` means the file
is absent. -/
structure FSState where
  file : Option FileDoc

/-- `HistoryEntry` of the source: `{ command: string, timestamp: number }`. -/
structure HistoryEntry where
  command : String
  timestamp : Int
deriving DecidableEq

/-- `HistoryConfig` of the source.  `maxSize` is a JS number; claims only
concern positive values but the embedding keeps it an integer so that
`history.slice(-maxSize)` is modelled faithfully at every value. -/
structure HistoryConfig where
  maxSize : Int
  saveHistory : Bool
  sensitivePatterns : List String
deriving DecidableEq

/-- `DEFAULT_HISTORY_CONFIG` of the source (`DEFAULT_HISTORY_SIZE = 1000`). -/
def DEFAULT_HISTORY_CONFIG : HistoryConfig :=
  { maxSize := 1000, saveHistory := true, sensitivePatterns := [] }

/-- JS regex word character (`\w` = `[A-Za-z0-9_]`). -/
def isWordChar (c : Char) : Bool :=
  ('A' ≤ c && c ≤ 'Z') || ('a' ≤ c && c ≤ 'z') || ('0' ≤ c && c ≤ '9') || c == '_'

/-- Character class `[A-Za-z0-9-_]` of the first built-in pattern: word
characters plus the literal hyphen. -/
def isTokenChar (c : Char) : Bool :=
  isWordChar c || c == '-'

/-- Word-character test at index `i`, with positions outside the string
counting as non-word (regex `\b` semantics at the string edges). -/
def wordAt (cs : List Char) (i : Nat) : Bool :=
  isWordChar (cs.getD i ' ')

/-- Word-character test for the character just before position `i`. -/
def wordBefore (cs : List Char) (i : Nat) : Bool :=
  match i with
  | 0 => false
  | j + 1 => wordAt cs j

/-- Regex word boundary `\b` at position `i`: word-ness changes between the
previous character and the current one. -/
def isBoundary (cs : List Char) (i : Nat) : Bool :=
  wordBefore cs i != wordAt cs i

/-- Matcher for the built-in regex `\b[A-Za-z0-9-_]{20,}\b` (`test`
semantics): some span of at least 20 token characters sits between two word
boundaries. -/
def matchesTokenRegex (s : String) : Bool :=
  let cs := s.data
  (List.range (cs.length + 1)).any fun i =>
    (List.range (cs.length + 1)).any fun j =>
      decide (i + 20 ≤ j) && decide (j ≤ cs.length) &&
        isBoundary cs i && isBoundary cs j &&
        (List.range (j - i)).all fun k => isTokenChar (cs.getD (i + k) ' ')

/-- ASCII lower-casing, the case folding JS applies for the `i` flag on
non-unicode regexes over the words `password`/`secret`/`token`/`key`. -/
def toLowerAscii (c : Char) : Char :=
  if 'A' ≤ c && c ≤ 'Z' then Char.ofNat (c.toNat + 32) else c

/-- Matcher for the built-in regexes `\bWORD\b/i` (`test` semantics):
a case-insensitive whole-word occurrence of `w` (given in lower case). -/
def matchesWordCI (w : String) (s : String) : Bool :=
  let cs := s.data.map toLowerAscii
  let ws := w.data
  (List.range (cs.length + 1)).any fun i =>
    decide (i + ws.length ≤ cs.length) &&
      ((List.range ws.length).all fun k => cs.getD (i + k) ' ' == ws.getD k ' ') &&
      isBoundary cs i && isBoundary cs (i + ws.length)

/-- `SENSITIVE_PATTERNS` of the source, as the list of `test` functions of
its five regexes, in order. -/
def SENSITIVE_PATTERNS : List (String → Bool) :=
  [matchesTokenRegex,
    matchesWordCI "password",
    matchesWordCI "secret",
    matchesWordCI "token",
    matchesWordCI "key"]

/-- `isSensitiveCommand(command, additionalPatterns)` of the source.  The
`compile` argument models `new RegExp`: `some test` when the pattern string
compiles (with `test` its match function), `none` when the constructor
throws; the source's `try/catch` skips the `none` case. -/
def isSensitiveCommand (compile : String → Option (String → Bool))
    (command : String) (additionalPatterns : List String) : Bool :=
  SENSITIVE_PATTERNS.any (fun pattern => pattern command) ||
    additionalPatterns.any fun patternStr =>
      match compile patternStr with
      | some t => t command
      | none => false

/-- JS whitespace as recognised by `String.prototype.trim` (ECMAScript
WhiteSpace plus LineTerminator). -/
def jsWhitespace (c : Char) : Bool :=
  c.toNat == 0x9 || c.toNat == 0xA || c.toNat == 0xB || c.toNat == 0xC ||
    c.toNat == 0xD || c.toNat == 0x20 || c.toNat == 0xA0 || c.toNat == 0x1680 ||
    (0x2000 ≤ c.toNat && c.toNat ≤ 0x200A) || c.toNat == 0x2028 ||
    c.toNat == 0x2029 || c.toNat == 0x202F || c.toNat == 0x205F ||
    c.toNat == 0x3000 || c.toNat == 0xFEFF

/-- `command.trim()` of the source. -/
def jsTrim (s : String) : String :=
  ⟨((s.data.dropWhile jsWhitespace).reverse.dropWhile jsWhitespace).reverse⟩

/-- `history.slice(-m)` of the source (`Array.prototype.slice` with one
argument `-m`): for positive `m` keep the last `m` elements, for `m ≤ 0`
(so a non-negative argument `-m`) start at `min(-m, length)`. -/
def sliceFromEnd {α : Type} (l : List α) (m : Int) : List α :=
  if 0 < m then l.drop (l.length - m.toNat)
  else l.drop (min (-m).toNat l.length)

/-- JSON encoding of one `HistoryEntry`, with the object keys in the
insertion order `JSON.stringify` uses for the literal in `addToHistory`. -/
def entryToJson (e : HistoryEntry) : Json :=
  Json.obj [("command", Json.str e.command), ("timestamp", Json.num e.timestamp)]

/-- `loadCommandHistory()` of the source.  `readOk = false` models
`fs.readFile` throwing (unreadable file); the `catch` turns any thrown
error into `[]`.  A parsed non-array document is replaced by `[]` by the
`Array.isArray` check; a parsed array is returned verbatim, its elements
unvalidated. -/
def loadCommandHistory (st : FSState) (readOk : Bool) : List Json :=
  match st.file with
  | none => []
  | some doc =>
    if readOk then
      match doc with
      | FileDoc.invalid => []
      | FileDoc.json (Json.arr xs) => xs
      | FileDoc.json _ => []
    else []

/-- `saveCommandHistory(history, config)` of the source: trim to the last
`maxSize` entries via `slice(-maxSize)`, serialize, overwrite the file.
`mkdirOk`/`writeOk` model `fs.mkdir`/`fs.writeFile` throwing; the `catch`
swallows the error, and a failed call is modelled as leaving the file in
its prior state (what bytes a runtime leaves behind on a mid-write failure
is not determined by this source). -/
def saveCommandHistory (history : List HistoryEntry) (config : HistoryConfig)
    (st : FSState) (mkdirOk writeOk : Bool) : FSState :=
  if mkdirOk then
    if writeOk then
      { file := some (FileDoc.json
          (Json.arr ((sliceFromEnd history config.maxSize).map entryToJson))) }
    else st
  else st

/-- `addToHistory(command, history, config)` of the source.  `now` models
`Date.now()`; `compile` models `new RegExp` (see `isSensitiveCommand`);
`mkdirOk`/`writeOk` are passed through to the inner `saveCommandHistory`.
Returns the new in-memory history together with the resulting file state. -/
def addToHistory (command : String) (history : List HistoryEntry)
    (config : HistoryConfig) (compile : String → Option (String → Bool))
    (now : Int) (st : FSState) (mkdirOk writeOk : Bool) :
    List HistoryEntry × FSState :=
  if !config.saveHistory || jsTrim command == "" then (history, st)
  else if isSensitiveCommand compile command config.sensitivePatterns then
    (history, st)
  else if (match history.getLast? with
           | some lastEntry => lastEntry.command == command
           | none => false) then (history, st)
  else
    let newHistory := history ++ [{ command := command, timestamp := now }]
    (newHistory, saveCommandHistory newHistory config st mkdirOk writeOk)

/-- `clearCommandHistory()` of the source: if the file exists, overwrite it
with `JSON.stringify([])`; otherwise do nothing.  `writeOk = false` models
`fs.writeFile` throwing, swallowed by the `catch`. -/
def clearCommandHistory (st : FSState) (writeOk : Bool) : FSState :=
  match st.file with
  | some _ => if writeOk then { file := some (FileDoc.json (Json.arr [])) } else st
  | none => st

/-- Position pair `(i, j)` witnessing the first built-in pattern on the
character list `cs`: a span of at least 20 characters of the class
`[A-Za-z0-9-_]` bracketed by word boundaries. -/
def TokenRunAt (cs : List Char) (i j : Nat) : Prop :=
  i + 20 ≤ j ∧ j ≤ cs.length ∧ isBoundary cs i = true ∧ isBoundary cs j = true ∧
    ∀ k, i ≤ k → k < j → isTokenChar (cs.getD k ' ') = true

/-- Position `i` witnessing a case-insensitive whole-word occurrence of the
lower-case word `w` in `s`. -/
def WholeWordCIAt (w s : String) (i : Nat) : Prop :=
  i + w.data.length ≤ s.data.length ∧
    (∀ k, k < w.data.length →
      (s.data.map toLowerAscii).getD (i + k) ' ' = w.data.getD k ' ') ∧
    isBoundary (s.data.map toLowerAscii) i = true ∧
    isBoundary (s.data.map toLowerAscii) (i + w.data.length) = true

/-- The executable transliteration of `\b[A-Za-z0-9-_]{20,}\b` matches exactly
when some bracketed span of 20+ token characters exists. -/
theorem matchesTokenRegex_iff (s : String) :
    matchesTokenRegex s = true ↔ ∃ i j, TokenRunAt s.data i j := by
  unfold matchesTokenRegex TokenRunAt
  simp only [List.any_eq_true, List.mem_range, Bool.and_eq_true, decide_eq_true_eq,
    List.all_eq_true]
  constructor
  · rintro ⟨i, hi, j, hj, ⟨⟨⟨h20, hjn⟩, hbi⟩, hbj⟩, hall⟩
    refine ⟨i, j, h20, hjn, hbi, hbj, fun k hik hkj => ?_⟩
    have hx := hall (k - i) (by omega)
    have he : i + (k - i) = k := by omega
    rwa [he] at hx
  · rintro ⟨i, j, h20, hjn, hbi, hbj, hall⟩
    exact ⟨i, by omega, j, by omega, ⟨⟨⟨h20, hjn⟩, hbi⟩, hbj⟩,
      fun k hk => hall (i + k) (by omega) (by omega)⟩

/-- The executable transliteration of `\bWORD\b/i` matches exactly when a
case-insensitive whole-word occurrence exists. -/
theorem matchesWordCI_iff (w s : String) :
    matchesWordCI w s = true ↔ ∃ i, WholeWordCIAt w s i := by
  unfold matchesWordCI WholeWordCIAt
  simp only [List.any_eq_true, List.mem_range, Bool.and_eq_true, decide_eq_true_eq,
    List.all_eq_true, beq_iff_eq, List.length_map]
  constructor
  · rintro ⟨i, hi, ⟨⟨hlen, hchars⟩, hbi⟩, hbj⟩
    exact ⟨i, hlen, fun k hk => hchars k hk, hbi, hbj⟩
  · rintro ⟨i, hlen, hchars, hbi, hbj⟩
    exact ⟨i, by omega, ⟨⟨hlen, fun k hk => hchars k hk⟩, hbi⟩, hbj⟩

/-- Caller-pattern step of `isSensitiveCommand`: the match on the modelled
`new RegExp` result is `true` exactly when the pattern compiles and its
`test` accepts the command. -/
theorem compileStep_eq_true (compile : String → Option (String → Bool))
    (cmd p : String) :
    (match compile p with
      | some t => t cmd
      | none => false) = true ↔ ∃ t, compile p = some t ∧ t cmd = true := by
  cases h : compile p <;> simp [h]

/-- C5: a command is classified sensitive iff some built-in pattern matches
(a word-boundary-bracketed span of 20+ alphanumeric/hyphen/underscore
characters, or a case-insensitive whole-word occurrence of `password`,
`secret`, `token` or `key` — exactly these five) or some caller pattern that
compiles as a regular expression matches. -/
theorem isSensitiveCommand_characterization
    (compile : String → Option (String → Bool)) (cmd : String)
    (P : List String) :
    isSensitiveCommand compile cmd P = true ↔
      ((∃ i j, TokenRunAt cmd.data i j)
        ∨ (∃ i, WholeWordCIAt "password" cmd i)
        ∨ (∃ i, WholeWordCIAt "secret" cmd i)
        ∨ (∃ i, WholeWordCIAt "token" cmd i)
        ∨ (∃ i, WholeWordCIAt "key" cmd i)
        ∨ ∃ p ∈ P, ∃ t, compile p = some t ∧ t cmd = true) := by
  unfold isSensitiveCommand SENSITIVE_PATTERNS
  simp only [List.any_cons, List.any_nil, Bool.or_eq_true, Bool.or_false,
    List.any_eq_true, matchesTokenRegex_iff, matchesWordCI_iff,
    compileStep_eq_true, or_assoc]

/-- C6: a caller pattern that fails to compile is skipped: the sensitivity
result on a pattern list equals the result on its sub-list of compilable
patterns (and the check is a total function, so it never throws). -/
theorem isSensitiveCommand_skips_uncompilable
    (compile : String → Option (String → Bool)) (cmd : String)
    (P : List String) :
    isSensitiveCommand compile cmd P
      = isSensitiveCommand compile cmd
          (P.filter fun p => (compile p).isSome) := by
  induction P with
  | nil => rfl
  | cons p ps ih =>
    unfold isSensitiveCommand at ih ⊢
    cases h : compile p with
    | none =>
      simpa [List.filter_cons, h, List.any_cons] using ih
    | some t =>
      cases hB : SENSITIVE_PATTERNS.any (fun pattern => pattern cmd)
      · simp only [hB, Bool.false_or] at ih ⊢
        simp [List.filter_cons, h, List.any_cons, ih]
      · simp [hB, List.filter_cons, h, List.any_cons]

/-- C1: for positive `maxSize`, a save that completes without I/O error
persists exactly the last `maxSize` entries of `S` (all of `S` when
`|S| ≤ maxSize`), in order; the persisted length never exceeds `maxSize`,
and a save that fails leaves the file unchanged. -/
theorem save_persists_last_maxSize (S : List HistoryEntry)
    (config : HistoryConfig) (st : FSState) (h : 0 < config.maxSize) :
    (saveCommandHistory S config st true true).file
        = some (FileDoc.json
            (Json.arr ((S.drop (S.length - config.maxSize.toNat)).map entryToJson)))
      ∧ (S.drop (S.length - config.maxSize.toNat)).length ≤ config.maxSize.toNat
      ∧ (S.length ≤ config.maxSize.toNat → S.drop (S.length - config.maxSize.toNat) = S)
      ∧ (config.maxSize.toNat < S.length →
          (S.drop (S.length - config.maxSize.toNat)).length = config.maxSize.toNat)
      ∧ ∀ mk wr : Bool, (mk && wr) = false →
          (saveCommandHistory S config st mk wr).file = st.file := by
  refine ⟨?_, ?_, ?_, ?_, ?_⟩
  · simp [saveCommandHistory, sliceFromEnd, h]
  · simp only [List.length_drop]
    omega
  · intro hle
    have : S.length - config.maxSize.toNat = 0 := by omega
    simp [this]
  · intro hgt
    simp only [List.length_drop]
    omega
  · intro mk wr hmw
    cases mk <;> cases wr <;> simp_all [saveCommandHistory]

/-- Witness for C1 at a concrete input: two entries, `maxSize = 1`. -/
theorem save_persists_last_maxSize_w :
    0 < (1 : Int)
      ∧ (saveCommandHistory [⟨"a", 1⟩, ⟨"b", 2⟩] ⟨1, true, []⟩ ⟨none⟩ true true).file
          = some (FileDoc.json (Json.arr [entryToJson ⟨"b", 2⟩])) :=
  ⟨by decide,
    (save_persists_last_maxSize [⟨"a", 1⟩, ⟨"b", 2⟩] ⟨1, true, []⟩ ⟨none⟩ (by decide)).1⟩

/-- C2: a command classified sensitive leaves both the in-memory sequence and
the backing file untouched. -/
theorem append_sensitive_noop (cmd : String) (S : List HistoryEntry)
    (config : HistoryConfig) (compile : String → Option (String → Bool))
    (now : Int) (st : FSState) (mk wr : Bool)
    (h : isSensitiveCommand compile cmd config.sensitivePatterns = true) :
    addToHistory cmd S config compile now st mk wr = (S, st) := by
  simp [addToHistory, h]

/-- Witness for C2: `export SECRET=xyz` is sensitive and appending it changes
nothing. -/
theorem append_sensitive_noop_w :
    isSensitiveCommand (fun _ => none) "export SECRET=xyz"
        DEFAULT_HISTORY_CONFIG.sensitivePatterns = true
      ∧ addToHistory "export SECRET=xyz" [] DEFAULT_HISTORY_CONFIG
          (fun _ => none) 0 ⟨none⟩ true true = ([], ⟨none⟩) :=
  ⟨by decide,
    append_sensitive_noop "export SECRET=xyz" [] DEFAULT_HISTORY_CONFIG
      (fun _ => none) 0 ⟨none⟩ true true (by decide)⟩

/-- C3: round trip — loading right after an error-free save returns exactly
the last `maxSize` entries of `S` (as their JSON encodings, and the encoding
is injective). -/
theorem load_save_roundtrip (S : List HistoryEntry) (config : HistoryConfig)
    (st : FSState) (h : 0 < config.maxSize) :
    loadCommandHistory (saveCommandHistory S config st true true) true
        = (S.drop (S.length - config.maxSize.toNat)).map entryToJson
      ∧ ∀ a b : HistoryEntry, entryToJson a = entryToJson b → a = b := by
  constructor
  · simp [loadCommandHistory, saveCommandHistory, sliceFromEnd, h]
  · intro a b hab
    cases a
    cases b
    simpa [entryToJson, HistoryEntry.mk.injEq] using hab

/-- Witness for C3 at a concrete input: two entries, `maxSize = 1`. -/
theorem load_save_roundtrip_w :
    loadCommandHistory
        (saveCommandHistory [⟨"a", 1⟩, ⟨"b", 2⟩] ⟨1, true, []⟩ ⟨none⟩ true true) true
      = [entryToJson ⟨"b", 2⟩] :=
  (load_save_roundtrip [⟨"a", 1⟩, ⟨"b", 2⟩] ⟨1, true, []⟩ ⟨none⟩ (by decide)).1

/-- C4: load recovers from every failure mode — absent file, unreadable file,
unparseable content, or a parsed non-array document — returning the empty
sequence (the embedding is a total function, so no error escapes). -/
theorem load_absorbs_failures (st : FSState) (r : Bool) :
    (st.file = none → loadCommandHistory st r = [])
      ∧ (r = false → loadCommandHistory st r = [])
      ∧ (st.file = some FileDoc.invalid → loadCommandHistory st r = [])
      ∧ ∀ v : Json, st.file = some (FileDoc.json v) →
          (∀ xs : List Json, v ≠ Json.arr xs) → loadCommandHistory st r = [] := by
  refine ⟨?_, ?_, ?_, ?_⟩
  · intro h
    simp [loadCommandHistory, h]
  · intro h
    subst h
    cases st with
    | mk f => cases f <;> simp [loadCommandHistory]
  · intro h
    cases r <;> simp [loadCommandHistory, h]
  · intro v h hv
    cases r <;> cases v <;> simp_all [loadCommandHistory]

/-- Witness for C4: the three recoverable failure modes at concrete states. -/
theorem load_absorbs_failures_w :
    loadCommandHistory ⟨none⟩ true = []
      ∧ loadCommandHistory ⟨some FileDoc.invalid⟩ true = []
      ∧ loadCommandHistory ⟨some (FileDoc.json (Json.obj []))⟩ true = []
      ∧ loadCommandHistory ⟨some (FileDoc.json (Json.arr []))⟩ false = [] :=
  ⟨(load_absorbs_failures ⟨none⟩ true).1 rfl,
    (load_absorbs_failures ⟨some FileDoc.invalid⟩ true).2.2.1 rfl,
    (load_absorbs_failures ⟨some (FileDoc.json (Json.obj []))⟩ true).2.2.2
      (Json.obj []) rfl (fun _ hx => Json.noConfusion hx),
    (load_absorbs_failures ⟨some (FileDoc.json (Json.arr []))⟩ false).2.1 rfl⟩

/-- C7: appending a command equal to the last entry's command returns the
sequence unchanged; a command that differs from the last entry's command
(even one occurring earlier, non-adjacently) is appended as a new entry when
no other skip condition applies. -/
theorem append_adjacent_dedup (cmd : String) (S : List HistoryEntry)
    (config : HistoryConfig) (compile : String → Option (String → Bool))
    (now : Int) (st : FSState) (mk wr : Bool) :
    ((∃ e, S.getLast? = some e ∧ e.command = cmd) →
        addToHistory cmd S config compile now st mk wr = (S, st))
      ∧ (config.saveHistory = true → jsTrim cmd ≠ "" →
          isSensitiveCommand compile cmd config.sensitivePatterns = false →
          (∀ e, S.getLast? = some e → e.command ≠ cmd) →
          (addToHistory cmd S config compile now st mk wr).1
            = S ++ [{ command := cmd, timestamp := now }]) := by
  constructor
  · rintro ⟨e, he, hcmd⟩
    simp [addToHistory, he, hcmd]
  · intro hsave htrim hsens hlast
    have htrim' : (jsTrim cmd == "") = false := by
      simpa using htrim
    cases hg : S.getLast? with
    | none => simp [addToHistory, hsave, htrim', hsens, hg]
    | some e =>
      have hne : (e.command == cmd) = false := by
        simpa using hlast e hg
      simp [addToHistory, hsave, htrim', hsens, hg, hne]

/-- Witness for C7: both halves at concrete inputs — appending `echo hi`
onto a history ending in `echo hi` is a no-op, appending `ls` extends it. -/
theorem append_adjacent_dedup_w :
    addToHistory "echo hi" [⟨"echo hi", 0⟩] DEFAULT_HISTORY_CONFIG
        (fun _ => none) 5 ⟨none⟩ true true = ([⟨"echo hi", 0⟩], ⟨none⟩)
      ∧ (addToHistory "ls" [⟨"echo hi", 0⟩] DEFAULT_HISTORY_CONFIG
          (fun _ => none) 5 ⟨none⟩ true true).1
        = [⟨"echo hi", 0⟩] ++ [{ command := "ls", timestamp := 5 }] :=
  ⟨(append_adjacent_dedup "echo hi" [⟨"echo hi", 0⟩] DEFAULT_HISTORY_CONFIG
      (fun _ => none) 5 ⟨none⟩ true true).1 ⟨⟨"echo hi", 0⟩, rfl, rfl⟩,
    (append_adjacent_dedup "ls" [⟨"echo hi", 0⟩] DEFAULT_HISTORY_CONFIG
      (fun _ => none) 5 ⟨none⟩ true true).2 rfl (by decide) (by decide)
      (by
        intro e he hc
        have : e = ⟨"echo hi", 0⟩ := by
          simpa using he.symm
        subst this
        simp at hc)⟩

/-- C8: clear overwrites an existing file with the empty JSON array, is a
no-op on an absent file, and in either case a subsequent load returns the
empty sequence (the embedding is total, so no error propagates). -/
theorem clear_then_load_empty (st : FSState) (wr r : Bool) :
    ((∃ d, st.file = some d) →
        (clearCommandHistory st true).file = some (FileDoc.json (Json.arr [])))
      ∧ (st.file = none → clearCommandHistory st wr = st)
      ∧ loadCommandHistory (clearCommandHistory st true) r = [] := by
  refine ⟨?_, ?_, ?_⟩
  · rintro ⟨d, hd⟩
    cases st with
    | mk f =>
      simp at hd
      simp [clearCommandHistory, hd]
  · intro h
    cases st with
    | mk f =>
      simp at h
      simp [clearCommandHistory, h]
  · cases st with
    | mk f => cases f <;> cases r <;> simp [clearCommandHistory, loadCommandHistory]

/-- Witness for C8 at concrete states: an existing (even unparseable) file is
overwritten with the empty array, an absent file stays absent, and load after
clear is empty. -/
theorem clear_then_load_empty_w :
    (clearCommandHistory ⟨some FileDoc.invalid⟩ true).file
        = some (FileDoc.json (Json.arr []))
      ∧ clearCommandHistory ⟨none⟩ false = ⟨none⟩
      ∧ loadCommandHistory (clearCommandHistory ⟨some FileDoc.invalid⟩ true) true = [] :=
  ⟨(clear_then_load_empty ⟨some FileDoc.invalid⟩ true true).1 ⟨FileDoc.invalid, rfl⟩,
    (clear_then_load_empty ⟨none⟩ false true).2.1 rfl,
    (clear_then_load_empty ⟨some FileDoc.invalid⟩ true true).2.2⟩

/-- C10: load performs no per-element validation — any parsed JSON array is
returned verbatim, whatever the shape of its elements; only a non-array
top-level document is replaced by the empty sequence. -/
theorem load_no_element_validation (xs : List Json) (v : Json) :
    loadCommandHistory ⟨some (FileDoc.json (Json.arr xs))⟩ true = xs
      ∧ ((∀ ys : List Json, v ≠ Json.arr ys) →
          loadCommandHistory ⟨some (FileDoc.json v)⟩ true = []) := by
  constructor
  · rfl
  · intro hv
    cases v <;> simp_all [loadCommandHistory]

/-- Witness for C10: an array of entries lacking `command`/`timestamp` fields
is returned verbatim; an object document yields the empty sequence. -/
theorem load_no_element_validation_w :
    loadCommandHistory
        ⟨some (FileDoc.json (Json.arr [Json.str "x", Json.num 7]))⟩ true
      = [Json.str "x", Json.num 7]
      ∧ loadCommandHistory ⟨some (FileDoc.json (Json.obj []))⟩ true = [] :=
  ⟨(load_no_element_validation [Json.str "x", Json.num 7] (Json.obj [])).1,
    (load_no_element_validation [] (Json.obj [])).2
      (fun _ hx => Json.noConfusion hx)⟩
